import Mathlib

/-!
Verification of the MediMind hybrid retrieval-augmented answer pipeline and
its chat frontend.

The frontend definitions below are a shallow embedding of the React chat
component (`ChatAgent`): model fetching and selection, request construction
for the `/ask` and `/ask-form` endpoints, response handling and the
`sendMessage` flow.  The backend pipeline (confidence gate, context merger,
answer generator) is not part of the repository snapshot; those components
are modelled from the specification, and each such definition says so in its
doc comment.
-/

namespace MediMind

/-! ## Frontend data model (from `ChatAgent`) -/

/-- Chat mode toggle: the component keeps `mode` as the string `"ai"` or
`"web"`; we embed it as a two-element type. -/
inductive Mode
  | ai
  | web
  deriving DecidableEq

/-- String stored in the React `mode` state for each mode. -/
def Mode.toStr : Mode → String
  | .ai => "ai"
  | .web => "web"

/-- A value attached to a request field: a string, an exact numeric literal,
or an uploaded file (identified by its name). -/
inductive FieldValue
  | str (s : String)
  | num (q : ℚ)
  | file (name : String)
  deriving DecidableEq

/-- Body of the JSON `POST /ask` request built by `sendMessage`:
`JSON.stringify (question, mode, model, max_tokens: 1200, temperature: 0.2)`. -/
def jsonAskBody (input : String) (mode : Mode) (selectedModel : String) :
    List (String × FieldValue) :=
  [("question", .str input),
   ("mode", .str mode.toStr),
   ("model", .str selectedModel),
   ("max_tokens", .num 1200),
   ("temperature", .num (1/5))]

/-- Body of the multipart `POST /ask-form` request built by `sendMessage`
when an image is attached in AI mode: the code appends exactly the fields
`question`, `mode`, `model` and `image` to the `FormData`. -/
def formAskBody (input : String) (mode : Mode) (selectedModel : String)
    (file : String) : List (String × FieldValue) :=
  [("question", .str input),
   ("mode", .str mode.toStr),
   ("model", .str selectedModel),
   ("image", .file file)]

/-- A backend request issued by `sendMessage`: either the JSON `/ask` call or
the multipart `/ask-form` call. -/
inductive Request
  | jsonAsk (body : List (String × FieldValue))
  | formAsk (body : List (String × FieldValue))
  deriving DecidableEq

/-- Request routing in `sendMessage`: the multipart path is taken exactly
when `mode === 'ai' && uploadedFile`; otherwise the JSON path is used. -/
def buildRequest (input : String) (mode : Mode) (uploadedFile : Option String)
    (selectedModel : String) : Request :=
  match mode, uploadedFile with
  | .ai, some f => .formAsk (formAskBody input .ai selectedModel f)
  | .ai, none => .jsonAsk (jsonAskBody input .ai selectedModel)
  | .web, _ => .jsonAsk (jsonAskBody input .web selectedModel)

/-- A source entry of a backend response (`sources[]`). -/
structure Source where
  title : Option String
  url : Option String
  raw_content : Option String
  snippet : Option String
  deriving DecidableEq

/-- The JSON response object read by the frontend.  Each field is `none` when
absent.  `points` is `some l` when the JSON field `points` is an array; the
spec-level field `key_points` is also carried so that we can state what the
frontend does with it. -/
structure RespData where
  title : Option String
  summary : Option String
  points : Option (List String)
  key_points : Option (List String)
  answer : Option String
  sources : Option (List Source)
  deriving DecidableEq

/-- JavaScript truthiness of an optional string field: absent and `""` are
falsy. -/
def truthyStr : Option String → Bool
  | none => false
  | some s => !(s == "")

/-- JavaScript `a || b` on an optional string: the default is used when the
field is absent or the empty string. -/
def jsOr (o : Option String) (dflt : String) : String :=
  match o with
  | none => dflt
  | some s => if s == "" then dflt else s

/-- The structured-response test of `sendMessage`:
`data && (data.title || data.summary || Array.isArray(data.points))`. -/
def isStructured (d : RespData) : Bool :=
  truthyStr d.title || truthyStr d.summary || d.points.isSome

/-- Message sender tag. -/
inductive Sender
  | user
  | ai
  deriving DecidableEq

/-- A chat message as kept in the `messages` React state. -/
structure ChatMsg where
  sender : Sender
  content : String
  title : Option String := none
  summary : Option String := none
  points : Option (List String) := none
  sources : List Source := []
  deriving DecidableEq

/-- Fallback content used for an unstructured response with no `answer`. -/
def defaultHelpText : String :=
  "I\x27m here to help! Please describe your symptoms or question."

/-- The AI message built from a successful (`response.ok`) response, exactly
as `sendMessage` builds `aiMsg`: structured fields are copied only when
`isStructured` holds, `points` defaults to `[]`, `sources` defaults to `[]`. -/
def respToMsg (d : RespData) : ChatMsg :=
  if isStructured d then
    { sender := .ai
      content := jsOr d.answer ""
      title := d.title
      summary := d.summary
      points := some (d.points.getD [])
      sources := d.sources.getD [] }
  else
    { sender := .ai
      content := jsOr d.answer defaultHelpText
      sources := d.sources.getD [] }

/-- AI message appended on a non-ok HTTP response. -/
def httpErrorMsg : ChatMsg :=
  { sender := .ai
    content := "Sorry, I encountered an error processing your request. Please try again." }

/-- AI message appended when the fetch itself throws. -/
def networkErrorMsg : ChatMsg :=
  { sender := .ai
    content := "Sorry, I\x27m having trouble connecting to the server. Please check your connection and try again." }

/-- Outcome of the backend call made by `sendMessage`. -/
inductive FetchResult
  | ok (d : RespData)
  | httpError
  | networkError
  deriving DecidableEq

/-- The single AI message `sendMessage` appends for a given outcome. -/
def aiResponseMsg : FetchResult → ChatMsg
  | .ok d => respToMsg d
  | .httpError => httpErrorMsg
  | .networkError => networkErrorMsg

/-- The chat component state touched by `sendMessage`. -/
structure ChatState where
  messages : List ChatMsg
  input : String
  isTyping : Bool
  deriving DecidableEq

/-- Whitespace test for one character, as used by `trim`. -/
def isWhitespaceChar (c : Char) : Bool :=
  c == ' ' || c == '\t' || c == '\n' || c == '\r'

/-- The guard `!input.trim()`: the input is blank when every character is
whitespace (in particular when it is empty), which is exactly when `trim`
yields the empty, falsy string. -/
def blankInput (s : String) : Bool :=
  s.toList.all isWhitespaceChar

/-- The `sendMessage` flow.  Blank input (`!input.trim()`) returns at once:
no request is issued and no state changes.  Otherwise the user message is
appended, the input cleared, one backend request issued, exactly one AI
message appended for the outcome, and `isTyping` is reset in `finally`. -/
def sendMessage (st : ChatState) (mode : Mode) (uploadedFile : Option String)
    (selectedModel : String) (res : FetchResult) : ChatState × Option Request :=
  if blankInput st.input then (st, none)
  else
    let userMsg : ChatMsg := { sender := .user, content := st.input }
    ({ messages := st.messages ++ [userMsg, aiResponseMsg res]
       input := ""
       isTyping := false },
     some (buildRequest st.input mode uploadedFile selectedModel))

/-! ## Model list and selection (from `ChatAgent`) -/

/-- Default model preferred throughout the component. -/
def deepseekId : String := "deepseek/deepseek-chat-v3-0324:free"

/-- The automatic-routing model id. -/
def autoId : String := "openrouter/auto"

/-- Hardcoded fallback list installed when the `/models` fetch fails. -/
def fallbackModels : List String :=
  [deepseekId,
   "moonshotai/kimi-vl-a3b-thinking:free",
   autoId,
   "qwen/qwen2.5-vl-32b-instruct:free",
   "nvidia/llama-3.1-nemotron-ultra-253b-v1:free"]

/-- Curated AI-mode model list: `models` filtered to the four reasoning /
vision ids. -/
def aiModelIds (models : List String) : List String :=
  models.filter fun m =>
    m == deepseekId ||
    m == "nvidia/llama-3.1-nemotron-ultra-253b-v1:free" ||
    m == "qwen/qwen2.5-vl-32b-instruct:free" ||
    m == "moonshotai/kimi-vl-a3b-thinking:free"

/-- Curated web-mode model list: the curated set plus the auto fallback. -/
def webModelIds (models : List String) : List String :=
  models.filter fun m =>
    m == autoId ||
    m == deepseekId ||
    m == "nvidia/llama-3.1-nemotron-ultra-253b-v1:free" ||
    m == "qwen/qwen2.5-vl-32b-instruct:free"

/-- The model list shown by the dropdown for the current mode. -/
def visibleModels (mode : Mode) (models : List String) : List String :=
  match mode with
  | .ai => aiModelIds models
  | .web => webModelIds models

/-- The model-selection state of the component. -/
structure ModelState where
  models : List String
  mode : Mode
  selectedModel : String
  deriving DecidableEq

/-- Initial state: no models fetched yet, web mode, DeepSeek preselected. -/
def initModelState : ModelState :=
  { models := [], mode := .web, selectedModel := deepseekId }

/-- The `useEffect` keyed on `[mode, visibleModels]`: if the selected model is
not in the visible list and that list is non-empty, select its first entry. -/
def modeFixup (st : ModelState) : ModelState :=
  let vis := visibleModels st.mode st.models
  if st.selectedModel ∈ vis then st
  else
    match vis with
    | [] => st
    | v :: _ => { st with selectedModel := v }

/-- The model list derived from a `/models` response: `data.models` when it is
an array (else `[]`), with `deepseekId` unshifted when missing. -/
def withDeepseek (data : Option (List String)) : List String :=
  let updated := data.getD []
  if deepseekId ∈ updated then updated else deepseekId :: updated

/-- The selection update of a successful `/models` fetch: keep the previous
selection when still present, otherwise fall back through DeepSeek, then
auto, then the first entry. -/
def fetchSelect (prev : String) (updated : List String) : String :=
  if prev ∈ updated then prev
  else if deepseekId ∈ updated then deepseekId
  else if autoId ∈ updated then autoId
  else updated.headD prev

/-- Successful `/models` fetch: install the list and update the selection;
afterwards the visible-list effect runs. -/
def fetchSuccess (st : ModelState) (data : Option (List String)) : ModelState :=
  modeFixup
    { models := withDeepseek data
      mode := st.mode
      selectedModel := fetchSelect st.selectedModel (withDeepseek data) }

/-- Failed `/models` fetch: install the hardcoded list and select DeepSeek;
afterwards the visible-list effect runs. -/
def fetchFailure (st : ModelState) : ModelState :=
  modeFixup { models := fallbackModels, mode := st.mode, selectedModel := deepseekId }

/-- Outcome of the single mount-time `/models` fetch. -/
inductive FetchOutcome
  | success (data : Option (List String))
  | failure

/-- Apply the mount-time fetch outcome. -/
def applyFetch (st : ModelState) : FetchOutcome → ModelState
  | .success data => fetchSuccess st data
  | .failure => fetchFailure st

/-- User interactions that touch model selection after mount. -/
inductive UserEvent
  | switchMode (m : Mode)
  | selectModel (id : String)

/-- Switching the Web/AI toggle; the visible-list effect then runs. -/
def switchMode (st : ModelState) (m : Mode) : ModelState :=
  modeFixup { st with mode := m }

/-- Choosing a model in the dropdown, which only offers the visible list. -/
def selectModel (st : ModelState) (id : String) : ModelState :=
  if id ∈ visibleModels st.mode st.models then
    modeFixup { st with selectedModel := id }
  else st

/-- One post-mount step of the model-selection state. -/
def stepUser (st : ModelState) : UserEvent → ModelState
  | .switchMode m => switchMode st m
  | .selectModel id => selectModel st id

/-- A whole session: the mount-time fetch followed by user events. -/
def runModelSession (fe : FetchOutcome) (events : List UserEvent) : ModelState :=
  events.foldl stepUser (applyFetch initModelState fe)

/-- The selection invariant: a non-empty visible list contains the selected
model. -/
def selInvariant (st : ModelState) : Prop :=
  visibleModels st.mode st.models ≠ [] →
    st.selectedModel ∈ visibleModels st.mode st.models

/-! ## Backend pipeline, modelled from the specification

The pipeline itself (FastAPI backend) is not part of the repository snapshot;
only its caller, the chat frontend, is.  The definitions in this section are
therefore modelled from the specification text. -/

/-- Modelled from the spec: the provenance tag of a `RetrievalResult`
(`local | web_primary | web_secondary`); the backend source clients are not
in the repository snapshot. -/
inductive SourceKind
  | localDoc
  | web_primary
  | web_secondary
  deriving DecidableEq

/-- Modelled from the spec: a normalized retrieval result
`(source_kind, uri_or_id, title, snippet, raw_content, relevance_score,
fetched_at)`; the backend source clients are not in the repository
snapshot. -/
structure RetrievalResult where
  source_kind : SourceKind
  uri_or_id : String
  title : String
  snippet : String
  raw_content : Option String
  relevance_score : ℚ
  fetched_at : Nat
  deriving DecidableEq

/-- Modelled from the spec: the confidence-gate decision. -/
inductive GateDecision
  | SUFFICIENT
  | INSUFFICIENT
  deriving DecidableEq

/-- Default confidence threshold τ = 0.6. -/
def defaultTau : ℚ := mkRat 3 5

/-- Default minimum hit count k = 2. -/
def defaultK : Nat := 2

/-- Modelled from the spec: the Confidence Gate — local evidence is
SUFFICIENT when at least `k` results score at least `τ`, else INSUFFICIENT;
the backend gate is not in the repository snapshot. -/
def confidenceGate (locals : List RetrievalResult) (tau : ℚ) (k : Nat) :
    GateDecision :=
  if k ≤ (locals.filter fun r => tau ≤ r.relevance_score).length then
    .SUFFICIENT
  else .INSUFFICIENT

/-- Modelled from the spec: the orchestrator triggers web retrieval exactly
when the gate (at the default τ and k) answers INSUFFICIENT; the backend
orchestrator is not in the repository snapshot. -/
def triggersWebRetrieval (locals : List RetrievalResult) : Bool :=
  confidenceGate locals defaultTau defaultK == .INSUFFICIENT

/-- Modelled from the spec: URI normalization used by the deduplication of
the Context Merger (case-insensitive, ignoring one trailing slash); the
backend merger is not in the repository snapshot. -/
def normalizeUri (u : String) : String :=
  let l := u.toLower
  if l.endsWith "/" then l.dropRight 1 else l

/-- Modelled from the spec: the deduplication key of the Context Merger —
the document id for local results, the normalized URI for web results.  The
flag separates the two namespaces. -/
def dedupKey (r : RetrievalResult) : Bool × String :=
  match r.source_kind with
  | .localDoc => (true, r.uri_or_id)
  | _ => (false, normalizeUri r.uri_or_id)

/-- Modelled from the spec: within one duplicate group, instance `a` wins
over instance `b` when it scores higher, or scores equally and came earlier
in the original provider order (the `Nat` component is that position). -/
def beats (a b : Nat × RetrievalResult) : Bool :=
  decide (b.2.relevance_score < a.2.relevance_score) ||
    (decide (a.2.relevance_score = b.2.relevance_score) && decide (a.1 < b.1))

/-- Modelled from the spec: a position-tagged result survives deduplication
when no same-key instance in the input beats it. -/
def survives (l : List (Nat × RetrievalResult)) (ir : Nat × RetrievalResult) :
    Bool :=
  l.all fun jr => !(decide (dedupKey jr.2 = dedupKey ir.2)) || !(beats jr ir)

/-- Modelled from the spec: the deduplication pass of the Context Merger —
keep the highest-scoring instance of each duplicate group. -/
def dedupByKey (l : List (Nat × RetrievalResult)) :
    List (Nat × RetrievalResult) :=
  l.filter (survives l)

/-- Modelled from the spec: the ranking order of the Context Merger —
relevance score descending, ties broken by recency (`fetched_at`
descending), then by original provider order. -/
def rankLeB (a b : Nat × RetrievalResult) : Bool :=
  decide (b.2.relevance_score < a.2.relevance_score) ||
    (decide (a.2.relevance_score = b.2.relevance_score) &&
      (decide (b.2.fetched_at < a.2.fetched_at) ||
        (decide (a.2.fetched_at = b.2.fetched_at) && decide (a.1 ≤ b.1))))

/-- Modelled from the spec: deduplicate, then rank survivors. -/
def mergeRank (l : List (Nat × RetrievalResult)) :
    List (Nat × RetrievalResult) :=
  (dedupByKey l).mergeSort rankLeB

/-- Modelled from the spec: a deduplicated, stably-indexed view of a
`RetrievalResult`; the index is assigned at merge time and is the only valid
citation key. -/
structure SourceRecord where
  index : Nat
  result : RetrievalResult
  deriving DecidableEq

/-- Modelled from the spec: the Context Merger — position-tag the combined
results, deduplicate by key keeping the highest-scoring instance, rank the
survivors, and assign zero-based `SourceRecord` indices in final rank
order; the backend merger is not in the repository snapshot. -/
def contextMerge (rs : List RetrievalResult) : List SourceRecord :=
  (mergeRank rs.enum).enum.map fun p => ⟨p.1, p.2.2⟩

/-- Modelled from the spec: a citation `(source_index, locator)`. -/
structure Citation where
  source_index : Nat
  locator : String
  deriving DecidableEq

/-- Modelled from the spec: the structured answer
`(title, summary, key_points, answer, citations)`. -/
structure StructuredAnswer where
  title : String
  summary : String
  key_points : List String
  answer : String
  citations : List Citation
  deriving DecidableEq

/-- Modelled from the spec: the Parsing step validates every citation marker
against the `SourceRecord` indices of the merged context, dropping citations
that reference an unknown index; the backend answer generator is not in the
repository snapshot. -/
def validateCitations (markers : List Citation) (sources : List SourceRecord) :
    List Citation :=
  markers.filter fun c => sources.any fun s => s.index == c.source_index

/-- Modelled from the spec: finalization freezes the structured answer,
keeping only validated citations. -/
def finalizeAnswer (title summary : String) (key_points : List String)
    (answer : String) (markers : List Citation)
    (sources : List SourceRecord) : StructuredAnswer :=
  { title := title
    summary := summary
    key_points := key_points
    answer := answer
    citations := validateCitations markers sources }

/-! ## Streaming versus batch generation, modelled from the specification -/

/-- Modelled from the spec: a stream event
`(text_piece | section_complete | citation | error | done)`; `text_piece`
stands for the incremental-text event kind; the backend generator is not in
the repository snapshot. -/
inductive StreamEvent
  | text_piece (s : String)
  | section_complete (name : String)
  | citation (c : Citation)
  | error (code : String)
  | done
  deriving DecidableEq

/-- Modelled from the spec: citation markers written `[k]` found in the
generated text, token by token. -/
def markerTokens (raw : String) : List Nat :=
  (raw.splitOn " ").filterMap fun w =>
    if w.startsWith "[" && w.endsWith "]" then ((w.drop 1).dropRight 1).toNat?
    else none

/-- Modelled from the spec: the tolerant structured-output parser (markdown
fallback path): first line is the title, second the summary, `- ` lines are
key points, the raw text is the answer, and each `[k]` marker becomes a
citation candidate validated against the merged sources. -/
def parseStructured (raw : String) (sources : List SourceRecord) :
    StructuredAnswer :=
  let ls := raw.splitOn "\n"
  finalizeAnswer (ls.headD "") ((ls.drop 1).headD "")
    (ls.filter fun s => s.startsWith "- ") raw
    ((markerTokens raw).map fun n => ⟨n, toString n⟩) sources

/-- Modelled from the spec: a deterministic model stub maps a prompt to a
finite token sequence. -/
def ModelStub : Type := String → List String

/-- Concatenation of a token sequence into the full generated text. -/
def concatTokens : List String → String
  | [] => ""
  | t :: ts => t ++ concatTokens ts

/-- Modelled from the spec: batch delivery — a single blocking call
returning the full text. -/
def generateBatch (stub : ModelStub) (prompt : String) : String :=
  concatTokens (stub prompt)

/-- Modelled from the spec: streaming delivery — one `text_piece` event per
token as it arrives, terminated by `done`. -/
def streamEvents (stub : ModelStub) (prompt : String) : List StreamEvent :=
  ((stub prompt).map .text_piece) ++ [.done]

/-- Text accumulated by the streaming consumer from the event sequence. -/
def accumulate (events : List StreamEvent) : String :=
  events.foldl (fun acc e =>
    match e with
    | .text_piece s => acc ++ s
    | _ => acc) ""

/-- Modelled from the spec: the final structured answer of a batch run. -/
def batchAnswer (stub : ModelStub) (prompt : String)
    (sources : List SourceRecord) : StructuredAnswer :=
  parseStructured (generateBatch stub prompt) sources

/-- Modelled from the spec: the final structured answer of a streaming run,
parsed from the accumulated partial text. -/
def streamAnswer (stub : ModelStub) (prompt : String)
    (sources : List SourceRecord) : StructuredAnswer :=
  parseStructured (accumulate (streamEvents stub prompt)) sources

/-- A concrete local retrieval result used to instantiate theorems. -/
def sampleResult : RetrievalResult :=
  ⟨.localDoc, "doc-1", "Anatomy", "sn", none, mkRat 1 2, 3⟩

/-- A web result whose URI normalizes to `https://example.com/a`. -/
def sampleDup1 : RetrievalResult :=
  ⟨.web_primary, "https://EXAMPLE.com/a/", "A strong", "s1", none,
   mkRat 9 10, 5⟩

/-- A lower-scoring duplicate of the same normalized URI. -/
def sampleDup2 : RetrievalResult :=
  ⟨.web_secondary, "https://example.com/a", "A weak", "s2", none,
   mkRat 1 2, 9⟩

/-- An unrelated local result. -/
def sampleOther : RetrievalResult :=
  ⟨.localDoc, "doc-9", "B", "s3", none, mkRat 7 10, 1⟩

/-- A concrete merger input containing a duplicate group. -/
def sampleInput : List RetrievalResult :=
  [sampleDup2, sampleDup1, sampleOther]

/-! ## Theorems -/

/-- C1: every citation of a finalized `StructuredAnswer` references a
`source_index` present in the merged `SourceRecord` list; citation markers
with an unknown index are dropped; no citation outside the generated markers
is ever fabricated (the citation list is a sublist of the markers). -/
theorem citations_reference_known_sources (title summary : String)
    (key_points : List String) (answerText : String) (markers : List Citation)
    (sources : List SourceRecord) :
    (∀ c ∈ (finalizeAnswer title summary key_points answerText markers
        sources).citations, ∃ s ∈ sources, s.index = c.source_index) ∧
    ((finalizeAnswer title summary key_points answerText markers
        sources).citations.Sublist markers) ∧
    (∀ c ∈ markers, (∀ s ∈ sources, s.index ≠ c.source_index) →
        c ∉ (finalizeAnswer title summary key_points answerText markers
          sources).citations) := by
  unfold finalizeAnswer validateCitations
  refine ⟨?_, List.filter_sublist _, ?_⟩
  · intro c hc
    rcases List.mem_filter.mp hc with ⟨_, hp⟩
    rcases List.any_eq_true.mp hp with ⟨s, hs, he⟩
    exact ⟨s, hs, by simpa using he⟩
  · intro c _ hnone hmem
    rcases List.mem_filter.mp hmem with ⟨_, hp⟩
    rcases List.any_eq_true.mp hp with ⟨s, hs, he⟩
    exact hnone s hs (by simpa using he)

/-- Witness for C1: with one source of index 0, marker `[7]` is dropped and
the surviving citation references index 0. -/
theorem citations_reference_known_sources_witness :
    (finalizeAnswer "t" "s" [] "a" [⟨0, "p"⟩, ⟨7, "q"⟩]
      [⟨0, sampleResult⟩]).citations = [⟨0, "p"⟩] ∧
    (∀ c ∈ (finalizeAnswer "t" "s" [] "a" [⟨0, "p"⟩, ⟨7, "q"⟩]
        [⟨0, sampleResult⟩]).citations,
      ∃ s ∈ [SourceRecord.mk 0 sampleResult], s.index = c.source_index) :=
  ⟨by decide,
   (citations_reference_known_sources "t" "s" [] "a" [⟨0, "p"⟩, ⟨7, "q"⟩]
     [⟨0, sampleResult⟩]).1⟩

/-- C2: the Confidence Gate is a pure function of the score vector, τ and k;
it answers SUFFICIENT exactly when at least `k` results score at least `τ`,
INSUFFICIENT exactly otherwise, and web retrieval is triggered exactly by
INSUFFICIENT at the defaults τ = 0.6, k = 2; the spec scenarios
`[0.8, 0.75, 0.3] → SUFFICIENT` and `[0.4] → INSUFFICIENT` hold. -/
theorem confidence_gate_rule (locals : List RetrievalResult) (tau : ℚ)
    (k : Nat) :
    (confidenceGate locals tau k = .SUFFICIENT ↔
      k ≤ (locals.filter fun r => tau ≤ r.relevance_score).length) ∧
    (confidenceGate locals tau k = .INSUFFICIENT ↔
      (locals.filter fun r => tau ≤ r.relevance_score).length < k) ∧
    (triggersWebRetrieval locals = true ↔
      confidenceGate locals defaultTau defaultK = .INSUFFICIENT) ∧
    confidenceGate
      [⟨.localDoc, "a", "", "", none, mkRat 4 5, 0⟩,
       ⟨.localDoc, "b", "", "", none, mkRat 3 4, 0⟩,
       ⟨.localDoc, "c", "", "", none, mkRat 3 10, 0⟩] defaultTau defaultK
      = .SUFFICIENT ∧
    triggersWebRetrieval [⟨.localDoc, "a", "", "", none, mkRat 2 5, 0⟩]
      = true := by
  refine ⟨?_, ?_, ?_, by decide, by decide⟩
  · unfold confidenceGate
    split_ifs with h <;> simpa using h
  · unfold confidenceGate
    split_ifs with h
    · simpa using Nat.not_lt.mpr h
    · simpa using Nat.lt_of_not_le h
  · simp [triggersWebRetrieval, beq_iff_eq]

/-- C5 counterexample: the multipart form path used when an image is attached
in AI mode does not carry the `max_tokens` and `temperature` fields, so the
claimed field set is not carried on both paths. -/
theorem form_path_missing_fields :
    buildRequest "q" Mode.ai (some "scan.png") "m"
      = Request.formAsk (formAskBody "q" Mode.ai "m" "scan.png") ∧
    "max_tokens" ∉ (formAskBody "q" Mode.ai "m" "scan.png").map Prod.fst ∧
    "temperature" ∉ (formAskBody "q" Mode.ai "m" "scan.png").map Prod.fst := by
  refine ⟨rfl, ?_, ?_⟩ <;> decide

/-- C5 amended: the JSON path (no image, or web mode) carries exactly
`question`, `mode`, `model`, `max_tokens`, `temperature`; the multipart path
taken when an image is attached in AI mode carries exactly `question`,
`mode`, `model` and the attached image, omitting `max_tokens` and
`temperature`. -/
theorem request_field_sets (input selectedModel file : String) (mode : Mode)
    (uploadedFile : Option String) :
    buildRequest input .ai (some file) selectedModel
      = .formAsk (formAskBody input .ai selectedModel file) ∧
    buildRequest input .web uploadedFile selectedModel
      = .jsonAsk (jsonAskBody input .web selectedModel) ∧
    buildRequest input .ai none selectedModel
      = .jsonAsk (jsonAskBody input .ai selectedModel) ∧
    (jsonAskBody input mode selectedModel).map Prod.fst
      = ["question", "mode", "model", "max_tokens", "temperature"] ∧
    (formAskBody input mode selectedModel file).map Prod.fst
      = ["question", "mode", "model", "image"] := by
  refine ⟨rfl, ?_, rfl, rfl, rfl⟩
  cases uploadedFile <;> rfl

/-- C6 counterexample: a response whose key points arrive under the
spec-level field `key_points` is not treated as structured by the frontend,
and no key points are rendered from it — the frontend only reads `points`. -/
theorem key_points_field_ignored :
    isStructured
      { title := none, summary := none, points := none,
        key_points := some ["Stay hydrated"], answer := some "Drink water.",
        sources := none } = false ∧
    (respToMsg
      { title := none, summary := none, points := none,
        key_points := some ["Stay hydrated"], answer := some "Drink water.",
        sources := none }).points = none := by
  refine ⟨rfl, by decide⟩

/-- C6 amended: the frontend exposes key points under the field `points`: a
response is treated as structured exactly when `title` or `summary` is
truthy or `points` is an array, the rendered key points are taken from
`points` (defaulting to the empty list), and the `key_points` field has no
effect on the message built from the response. -/
theorem structured_points_field (d : RespData) :
    (isStructured d
      = (truthyStr d.title || truthyStr d.summary || d.points.isSome)) ∧
    respToMsg d = respToMsg { d with key_points := none } ∧
    ((respToMsg d).points
      = if isStructured d then some (d.points.getD []) else none) := by
  refine ⟨rfl, rfl, ?_⟩
  by_cases h : isStructured d <;> simp [respToMsg, h]

/-- C8: a query whose text is empty or whitespace-only is rejected
immediately by `sendMessage`: no backend request is issued and the chat
state is unchanged, so no retry, retrieval or generation can occur. -/
theorem blank_input_rejected (st : ChatState) (mode : Mode)
    (uploadedFile : Option String) (selectedModel : String)
    (res : FetchResult) (h : blankInput st.input = true) :
    sendMessage st mode uploadedFile selectedModel res = (st, none) := by
  unfold sendMessage
  simp [h]

/-- Witness for C8: a whitespace-only input is rejected with no request. -/
theorem blank_input_rejected_witness :
    sendMessage ⟨[], "   ", false⟩ .web none "m" .httpError
      = (⟨[], "   ", false⟩, none) :=
  blank_input_rejected ⟨[], "   ", false⟩ .web none "m" .httpError (by decide)

/-- C10: for non-blank input, whatever the outcome of the backend call —
success, HTTP error status, or a thrown network error — exactly one AI
message is appended directly after the user message, exactly one request is
issued, and the typing indicator is off once the invocation completes. -/
theorem send_message_outcome (st : ChatState) (mode : Mode)
    (uploadedFile : Option String) (selectedModel : String)
    (res : FetchResult) (h : blankInput st.input = false) :
    ((sendMessage st mode uploadedFile selectedModel res).1.messages
      = st.messages
        ++ [{ sender := .user, content := st.input }, aiResponseMsg res]) ∧
    (aiResponseMsg res).sender = .ai ∧
    (sendMessage st mode uploadedFile selectedModel res).1.isTyping = false ∧
    (sendMessage st mode uploadedFile selectedModel res).2
      = some (buildRequest st.input mode uploadedFile selectedModel) := by
  unfold sendMessage
  rw [h]
  refine ⟨rfl, ?_, rfl, rfl⟩
  cases res with
  | ok d =>
    by_cases hs : isStructured d <;> simp [aiResponseMsg, respToMsg, hs]
  | httpError => rfl
  | networkError => rfl

/-- Witness for C10: a concrete non-blank invocation ending in a network
error appends the user message and exactly one AI message and clears the
typing state. -/
theorem send_message_outcome_witness :
    ((sendMessage ⟨[], "hi", true⟩ .web none "m" .networkError).1.messages
      = [{ sender := .user, content := "hi" },
         aiResponseMsg .networkError]) ∧
    (aiResponseMsg FetchResult.networkError).sender = .ai ∧
    (sendMessage ⟨[], "hi", true⟩ .web none "m" .networkError).1.isTyping
      = false :=
  ⟨(send_message_outcome ⟨[], "hi", true⟩ .web none "m" .networkError
      (by decide)).1,
   (send_message_outcome ⟨[], "hi", true⟩ .web none "m" .networkError
      (by decide)).2.1,
   (send_message_outcome ⟨[], "hi", true⟩ .web none "m" .networkError
      (by decide)).2.2.1⟩

/-- The text accumulated from the streamed events equals the batch full
text. -/
theorem accumulate_stream_aux (ts : List String) (acc : String) :
    List.foldl (fun acc e =>
      match e with
      | StreamEvent.text_piece s => acc ++ s
      | _ => acc) acc ((ts.map .text_piece) ++ [.done])
      = acc ++ concatTokens ts := by
  induction ts generalizing acc with
  | nil => simp [concatTokens]
  | cons t ts ih =>
    simp only [List.map_cons, List.cons_append, List.foldl_cons, ih,
      concatTokens]
    rw [String.append_assoc]

/-- C9: for the same prompt and a deterministic model stub, the streaming
delivery (one `text_piece` event per token, terminated by `done`) and the
batch delivery (single blocking call) produce the same final
`StructuredAnswer`. -/
theorem stream_batch_equivalent (stub : ModelStub) (prompt : String)
    (sources : List SourceRecord) :
    streamAnswer stub prompt sources = batchAnswer stub prompt sources ∧
    (streamEvents stub prompt).getLast? = some .done := by
  constructor
  · unfold streamAnswer batchAnswer accumulate streamEvents generateBatch
    rw [accumulate_stream_aux]
    simp
  · simp [streamEvents]

/-- The visible model list is a sublist of the fetched model list. -/
theorem visible_subset (mode : Mode) (models : List String) :
    visibleModels mode models ⊆ models := by
  cases mode
  · exact fun x hx => (List.mem_filter.mp hx).1
  · exact fun x hx => (List.mem_filter.mp hx).1

/-- The visible-list effect is the identity when the selection is already
visible. -/
theorem modeFixup_keeps (st : ModelState)
    (h : st.selectedModel ∈ visibleModels st.mode st.models) :
    modeFixup st = st := by
  unfold modeFixup
  simp [h]

/-- When the selection is not visible, the visible-list effect selects the
head of the visible list (and changes nothing when that list is empty). -/
theorem modeFixup_replaces (st : ModelState)
    (h : st.selectedModel ∉ visibleModels st.mode st.models) :
    (modeFixup st).selectedModel
      = (visibleModels st.mode st.models).headD st.selectedModel := by
  unfold modeFixup
  rcases hv : visibleModels st.mode st.models with _ | ⟨v, t⟩
  · simp [h, hv]
  · rw [hv] at h
    simp [h, hv]

/-- After the visible-list effect, a non-empty visible list contains the
selected model. -/
theorem selInvariant_modeFixup (st : ModelState) :
    selInvariant (modeFixup st) := by
  unfold selInvariant
  by_cases h : st.selectedModel ∈ visibleModels st.mode st.models
  · rw [modeFixup_keeps st h]
    intro _
    exact h
  · rcases hv : visibleModels st.mode st.models with _ | ⟨v, t⟩
    · rw [show modeFixup st = st from by unfold modeFixup; simp [h, hv]]
      intro hne
      rw [hv] at hne
      exact absurd rfl hne
    · have h2 : st.selectedModel ∉ v :: t := hv ▸ h
      rw [show modeFixup st = { st with selectedModel := v } from by
        unfold modeFixup; rw [hv]; simp [h2]]
      intro _
      show v ∈ visibleModels st.mode st.models
      rw [hv]
      exact List.mem_cons_self v t

/-- Every post-mount user event preserves the selection invariant. -/
theorem selInvariant_stepUser (st : ModelState) (e : UserEvent)
    (h : selInvariant st) : selInvariant (stepUser st e) := by
  cases e with
  | switchMode m => exact selInvariant_modeFixup _
  | selectModel id =>
    show selInvariant (selectModel st id)
    unfold selectModel
    split_ifs with hm
    · exact selInvariant_modeFixup _
    · exact h

/-- Both outcomes of the mount-time fetch establish the selection
invariant. -/
theorem selInvariant_applyFetch (st : ModelState) (fe : FetchOutcome) :
    selInvariant (applyFetch st fe) := by
  cases fe with
  | success data => exact selInvariant_modeFixup _
  | failure => exact selInvariant_modeFixup _

/-- The selection invariant holds after any session. -/
theorem selInvariant_run (fe : FetchOutcome) (events : List UserEvent) :
    selInvariant (runModelSession fe events) := by
  unfold runModelSession
  suffices haux : ∀ (evs : List UserEvent) (st : ModelState), selInvariant st →
      selInvariant (evs.foldl stepUser st) from
    haux events _ (selInvariant_applyFetch _ _)
  intro evs
  induction evs with
  | nil => exact fun st h => h
  | cons e evs ih => exact fun st h => ih _ (selInvariant_stepUser st e h)

/-- A mode switch keeps a selection that is valid for the new mode. -/
theorem switchMode_keeps (st : ModelState) (m : Mode)
    (h : st.selectedModel ∈ visibleModels m st.models) :
    (switchMode st m).selectedModel = st.selectedModel := by
  show (modeFixup { st with mode := m }).selectedModel = st.selectedModel
  rw [modeFixup_keeps { st with mode := m } h]

/-- A mode switch replaces an invalid selection by the head of the new
mode's visible list. -/
theorem switchMode_replaces (st : ModelState) (m : Mode)
    (h : st.selectedModel ∉ visibleModels m st.models) :
    (switchMode st m).selectedModel
      = (visibleModels m st.models).headD st.selectedModel := by
  show (modeFixup { st with mode := m }).selectedModel = _
  exact modeFixup_replaces { st with mode := m } h

/-- `fetchSelect` keeps a still-present selection. -/
theorem fetchSelect_keeps (prev : String) (updated : List String)
    (h : prev ∈ updated) : fetchSelect prev updated = prev := by
  unfold fetchSelect
  simp [h]

/-- DeepSeek is always a member of the normalized fetched list. -/
theorem deepseek_mem_withDeepseek (data : Option (List String)) :
    deepseekId ∈ withDeepseek data := by
  by_cases h : deepseekId ∈ data.getD []
  · simp [withDeepseek, h]
  · simp [withDeepseek, h]

/-- DeepSeek passes both mode filters, so it is visible whenever fetched. -/
theorem deepseek_mem_visible (mode : Mode) (models : List String)
    (h : deepseekId ∈ models) : deepseekId ∈ visibleModels mode models := by
  cases mode
  · exact List.mem_filter.mpr ⟨h, by decide⟩
  · exact List.mem_filter.mpr ⟨h, by decide⟩

/-- A successful fetch keeps a selection that remains visible. -/
theorem fetchSuccess_keeps (st : ModelState) (data : Option (List String))
    (h : st.selectedModel ∈ visibleModels st.mode (withDeepseek data)) :
    (fetchSuccess st data).selectedModel = st.selectedModel := by
  have hu : st.selectedModel ∈ withDeepseek data :=
    visible_subset st.mode (withDeepseek data) h
  unfold fetchSuccess
  rw [fetchSelect_keeps _ _ hu]
  rw [modeFixup_keeps _ h]

/-- A successful fetch replaces a no-longer-visible selection by a default:
DeepSeek (head of the configured fallback chain) or the head of the visible
list, and the result is always visible. -/
theorem fetchSuccess_replaces (st : ModelState) (data : Option (List String))
    (h : st.selectedModel ∉ visibleModels st.mode (withDeepseek data)) :
    ((fetchSuccess st data).selectedModel = deepseekId ∨
     (fetchSuccess st data).selectedModel
       = (visibleModels st.mode (withDeepseek data)).headD deepseekId) ∧
    (fetchSuccess st data).selectedModel
      ∈ visibleModels st.mode (withDeepseek data) := by
  have hd := deepseek_mem_withDeepseek data
  have hdv := deepseek_mem_visible st.mode _ hd
  have hne : visibleModels st.mode (withDeepseek data) ≠ [] := by
    intro hnil
    rw [hnil] at hdv
    exact List.not_mem_nil _ hdv
  unfold fetchSuccess
  by_cases hu : st.selectedModel ∈ withDeepseek data
  · rw [fetchSelect_keeps _ _ hu]
    have hrep := modeFixup_replaces
      { models := withDeepseek data, mode := st.mode,
        selectedModel := st.selectedModel } h
    obtain ⟨v, t, hv⟩ := List.exists_cons_of_ne_nil hne
    constructor
    · right
      rw [hrep, hv]
      rfl
    · rw [hrep, hv]
      exact List.mem_cons_self v t
  · have hsel : fetchSelect st.selectedModel (withDeepseek data)
        = deepseekId := by
      unfold fetchSelect
      simp [hu, hd]
    rw [hsel]
    rw [modeFixup_keeps _ hdv]
    exact ⟨Or.inl rfl, hdv⟩

/-- C7: the model-selection invariant — after the mount-time fetch and any
sequence of mode switches and dropdown picks, a non-empty visible list
contains the selected model; on a mode change or model-list change the
selection is kept exactly when it is still visible, and otherwise it is
replaced by the head of the mode's visible list or by DeepSeek, the head of
the configured default chain. -/
theorem model_selection_invariant :
    (∀ fe events, selInvariant (runModelSession fe events)) ∧
    (∀ st m, st.selectedModel ∈ visibleModels m st.models →
      (switchMode st m).selectedModel = st.selectedModel) ∧
    (∀ st m, st.selectedModel ∉ visibleModels m st.models →
      (switchMode st m).selectedModel
        = (visibleModels m st.models).headD st.selectedModel) ∧
    (∀ st data, st.selectedModel ∈ visibleModels st.mode (withDeepseek data) →
      (fetchSuccess st data).selectedModel = st.selectedModel) ∧
    (∀ st data, st.selectedModel ∉ visibleModels st.mode (withDeepseek data) →
      ((fetchSuccess st data).selectedModel = deepseekId ∨
       (fetchSuccess st data).selectedModel
         = (visibleModels st.mode (withDeepseek data)).headD deepseekId) ∧
      (fetchSuccess st data).selectedModel
        ∈ visibleModels st.mode (withDeepseek data)) :=
  ⟨selInvariant_run,
   switchMode_keeps,
   switchMode_replaces,
   fetchSuccess_keeps,
   fetchSuccess_replaces⟩

/-- Witness for C7: concrete sessions and transitions exercising each
clause. -/
theorem model_selection_invariant_witness :
    (runModelSession .failure []).selectedModel
      ∈ visibleModels (runModelSession .failure []).mode
          (runModelSession .failure []).models ∧
    (switchMode ⟨fallbackModels, .web, deepseekId⟩ .ai).selectedModel
      = deepseekId ∧
    (switchMode ⟨fallbackModels, .web, autoId⟩ .ai).selectedModel
      = (visibleModels .ai fallbackModels).headD autoId ∧
    (fetchSuccess ⟨[], .web, deepseekId⟩ none).selectedModel = deepseekId ∧
    (fetchSuccess ⟨[], .web, "legacy"⟩ none).selectedModel
      ∈ visibleModels .web (withDeepseek none) :=
  ⟨model_selection_invariant.1 .failure [] (by decide),
   model_selection_invariant.2.1 ⟨fallbackModels, .web, deepseekId⟩ .ai
     (by decide),
   model_selection_invariant.2.2.1 ⟨fallbackModels, .web, autoId⟩ .ai
     (by decide),
   model_selection_invariant.2.2.2.1 ⟨[], .web, deepseekId⟩ none (by decide),
   (model_selection_invariant.2.2.2.2 ⟨[], .web, "legacy"⟩ none
     (by decide)).2⟩

/-- An instance never beats itself. -/
theorem beats_irrefl (a : Nat × RetrievalResult) : beats a a = false := by
  simp [beats]

/-- The beats order is transitive. -/
theorem beats_trans {a b c : Nat × RetrievalResult}
    (h1 : beats a b = true) (h2 : beats b c = true) : beats a c = true := by
  simp only [beats, Bool.or_eq_true, Bool.and_eq_true, decide_eq_true_eq]
    at h1 h2 ⊢
  rcases h1 with h1 | ⟨hs1, hp1⟩ <;> rcases h2 with h2 | ⟨hs2, hp2⟩
  · exact Or.inl (lt_trans h2 h1)
  · exact Or.inl (hs2 ▸ h1)
  · refine Or.inl ?_
    rw [hs1]
    exact h2
  · exact Or.inr ⟨hs1.trans hs2, lt_trans hp1 hp2⟩

/-- Two instances that do not beat each other have equal score and equal
original position. -/
theorem not_beats_antisymm {a b : Nat × RetrievalResult}
    (hab : beats a b = false) (hba : beats b a = false) :
    a.2.relevance_score = b.2.relevance_score ∧ a.1 = b.1 := by
  simp only [beats, Bool.or_eq_false_iff, Bool.and_eq_false_iff,
    decide_eq_false_iff_not] at hab hba
  obtain ⟨hab1, hab2⟩ := hab
  obtain ⟨hba1, hba2⟩ := hba
  have hs : a.2.relevance_score = b.2.relevance_score :=
    le_antisymm (le_of_not_lt hab1) (le_of_not_lt hba1)
  refine ⟨hs, ?_⟩
  rcases hab2 with h | h
  · exact absurd hs h
  · rcases hba2 with h' | h'
    · exact absurd hs.symm h'
    · omega

/-- Every member of an enumeration is the pair of its index and the list
entry at that index. -/
theorem mem_enum_eq {α : Type} (l : List α) (x : Nat × α) (hx : x ∈ l.enum) :
    ∃ h : x.1 < l.length, x.2 = l[x.1] := by
  rcases List.mem_iff_getElem.mp hx with ⟨i, hi, he⟩
  rw [List.getElem_enum] at he
  subst he
  exact ⟨by simpa using hi, rfl⟩

/-- Within one enumeration, the index determines the pair. -/
theorem enum_fst_inj {α : Type} (l : List α) (a b : Nat × α)
    (ha : a ∈ l.enum) (hb : b ∈ l.enum) (hfst : a.1 = b.1) : a = b := by
  obtain ⟨h1, he1⟩ := mem_enum_eq l a ha
  obtain ⟨h2, he2⟩ := mem_enum_eq l b hb
  refine Prod.ext hfst ?_
  rw [he1, he2]
  congr 1

/-- An enumeration has no duplicate entries. -/
theorem enum_nodup {α : Type} (l : List α) : l.enum.Nodup := by
  refine List.Nodup.of_map Prod.fst ?_
  rw [List.enum_map_fst]
  exact List.nodup_range _

/-- Deduplication keeps at most one instance per key. -/
theorem dedup_key_inj (rs : List RetrievalResult)
    (a b : Nat × RetrievalResult)
    (ha : a ∈ dedupByKey rs.enum) (hb : b ∈ dedupByKey rs.enum)
    (hk : dedupKey a.2 = dedupKey b.2) : a = b := by
  obtain ⟨ham, has⟩ := List.mem_filter.mp ha
  obtain ⟨hbm, hbs⟩ := List.mem_filter.mp hb
  have h1 : beats b a = false := by
    have hall := (List.all_eq_true.mp has) b hbm
    rw [decide_eq_true hk.symm] at hall
    simpa using hall
  have h2 : beats a b = false := by
    have hall := (List.all_eq_true.mp hbs) a ham
    rw [decide_eq_true hk] at hall
    simpa using hall
  obtain ⟨_, hp⟩ := not_beats_antisymm h2 h1
  exact enum_fst_inj rs a b ham hbm hp

/-- No two deduplication survivors share a key. -/
theorem dedup_pairwise_keys (rs : List RetrievalResult) :
    (dedupByKey rs.enum).Pairwise fun a b =>
      dedupKey a.2 ≠ dedupKey b.2 := by
  have hnd : (dedupByKey rs.enum).Nodup :=
    (enum_nodup rs).filter _
  refine hnd.imp_of_mem ?_
  intro a b ha hb hne hk
  exact hne (dedup_key_inj rs a b ha hb hk)

/-- A deduplication survivor scores at least as high as every same-key
instance of the input. -/
theorem dedup_max_score (rs : List RetrievalResult)
    (s : Nat × RetrievalResult) (hs : s ∈ dedupByKey rs.enum)
    (j : Nat × RetrievalResult) (hj : j ∈ rs.enum)
    (hk : dedupKey j.2 = dedupKey s.2) :
    j.2.relevance_score ≤ s.2.relevance_score := by
  obtain ⟨_, hss⟩ := List.mem_filter.mp hs
  have hall := (List.all_eq_true.mp hss) j hj
  rw [decide_eq_true hk] at hall
  have hbf : beats j s = false := by simpa using hall
  simp only [beats, Bool.or_eq_false_iff, decide_eq_false_iff_not] at hbf
  exact le_of_not_lt hbf.1

/-- Every non-empty collection of instances has an unbeaten member. -/
theorem exists_unbeaten :
    ∀ G : List (Nat × RetrievalResult), G ≠ [] →
      ∃ m ∈ G, ∀ x ∈ G, beats x m = false := by
  intro G
  induction G with
  | nil => exact fun h => absurd rfl h
  | cons a t ih =>
    intro _
    by_cases ht : t = []
    · subst ht
      refine ⟨a, List.mem_cons_self _ _, ?_⟩
      intro x hx
      rcases List.mem_cons.mp hx with rfl | hxt
      · exact beats_irrefl x
      · exact absurd hxt (List.not_mem_nil x)
    · obtain ⟨m, hm, hunb⟩ := ih ht
      by_cases hb : beats a m = true
      · refine ⟨a, List.mem_cons_self _ _, ?_⟩
        intro x hx
        rcases List.mem_cons.mp hx with rfl | hxt
        · exact beats_irrefl x
        · by_contra hxa
          have hxa' : beats x a = true := by
            revert hxa
            cases beats x a <;> simp
          have := beats_trans hxa' hb
          rw [hunb x hxt] at this
          cases this
      · refine ⟨m, List.mem_cons_of_mem a hm, ?_⟩
        intro x hx
        rcases List.mem_cons.mp hx with rfl | hxt
        · revert hb
          cases beats x m <;> simp
        · exact hunb x hxt

/-- Every input key survives deduplication. -/
theorem dedup_covers (rs : List RetrievalResult) (r : RetrievalResult)
    (hr : r ∈ rs) :
    ∃ s ∈ dedupByKey rs.enum, dedupKey s.2 = dedupKey r := by
  rcases List.mem_iff_getElem.mp hr with ⟨i, hi, he⟩
  have hmemEnum : (i, r) ∈ rs.enum := by
    refine List.mem_iff_getElem.mpr ⟨i, by simpa using hi, ?_⟩
    rw [List.getElem_enum, he]
  have hG : (i, r) ∈ rs.enum.filter
      (fun j => decide (dedupKey j.2 = dedupKey r)) :=
    List.mem_filter.mpr ⟨hmemEnum, decide_eq_true rfl⟩
  obtain ⟨m, hmG, hunb⟩ := exists_unbeaten _ (List.ne_nil_of_mem hG)
  obtain ⟨hmEnum, hmKey⟩ := List.mem_filter.mp hmG
  have hkey : dedupKey m.2 = dedupKey r := of_decide_eq_true hmKey
  refine ⟨m, List.mem_filter.mpr ⟨hmEnum, ?_⟩, hkey⟩
  refine List.all_eq_true.mpr ?_
  intro j hj
  by_cases hkj : dedupKey j.2 = dedupKey m.2
  · have hjG : j ∈ rs.enum.filter
        (fun j => decide (dedupKey j.2 = dedupKey r)) :=
      List.mem_filter.mpr ⟨hj, decide_eq_true (hkj.trans hkey)⟩
    rw [decide_eq_true hkj, hunb j hjG]
    rfl
  · rw [decide_eq_false hkj]
    rfl

/-- The ranking order is transitive. -/
theorem rankLeB_trans (a b c : Nat × RetrievalResult)
    (h1 : rankLeB a b = true) (h2 : rankLeB b c = true) :
    rankLeB a c = true := by
  simp only [rankLeB, Bool.or_eq_true, Bool.and_eq_true, decide_eq_true_eq]
    at h1 h2 ⊢
  rcases h1 with h1 | ⟨hs1, h1⟩ <;> rcases h2 with h2 | ⟨hs2, h2⟩
  · exact Or.inl (lt_trans h2 h1)
  · exact Or.inl (hs2 ▸ h1)
  · refine Or.inl ?_
    rw [hs1]
    exact h2
  · refine Or.inr ⟨hs1.trans hs2, ?_⟩
    rcases h1 with h1 | ⟨hf1, hp1⟩ <;> rcases h2 with h2 | ⟨hf2, hp2⟩
    · exact Or.inl (lt_trans h2 h1)
    · exact Or.inl (hf2 ▸ h1)
    · refine Or.inl ?_
      rw [hf1]
      exact h2
    · exact Or.inr ⟨hf1.trans hf2, le_trans hp1 hp2⟩

/-- The ranking order is total. -/
theorem rankLeB_total (a b : Nat × RetrievalResult) :
    (rankLeB a b || rankLeB b a) = true := by
  simp only [rankLeB, Bool.or_eq_true, Bool.and_eq_true, decide_eq_true_eq]
  rcases lt_trichotomy a.2.relevance_score b.2.relevance_score with h | h | h
  · exact Or.inr (Or.inl h)
  · rcases lt_trichotomy a.2.fetched_at b.2.fetched_at with hf | hf | hf
    · exact Or.inr (Or.inr ⟨h.symm, Or.inl hf⟩)
    · rcases Nat.le_total a.1 b.1 with hp | hp
      · exact Or.inl (Or.inr ⟨h, Or.inr ⟨hf, hp⟩⟩)
      · exact Or.inr (Or.inr ⟨h.symm, Or.inr ⟨hf.symm, hp⟩⟩)
    · exact Or.inl (Or.inr ⟨h, Or.inl hf⟩)
  · exact Or.inl (Or.inl h)

/-- Reindexing in an order-compatible way preserves the ranking order. -/
theorem rankLeB_shift {a b : Nat × RetrievalResult} {i j : Nat}
    (h : rankLeB a b = true) (hij : i ≤ j) :
    rankLeB (i, a.2) (j, b.2) = true := by
  simp only [rankLeB, Bool.or_eq_true, Bool.and_eq_true, decide_eq_true_eq]
    at h ⊢
  rcases h with h | ⟨hs, h | ⟨hf, _⟩⟩
  · exact Or.inl h
  · exact Or.inr ⟨hs, Or.inl h⟩
  · exact Or.inr ⟨hs, Or.inr ⟨hf, hij⟩⟩

/-- The merger output is sorted in the ranking order. -/
theorem mergeRank_sorted (l : List (Nat × RetrievalResult)) :
    (mergeRank l).Pairwise fun a b => rankLeB a b = true := by
  unfold mergeRank
  exact List.sorted_mergeSort rankLeB_trans rankLeB_total _

/-- No two entries of the ranked merger output share a key. -/
theorem mergeRank_pairwise_keys (rs : List RetrievalResult) :
    (mergeRank rs.enum).Pairwise fun a b =>
      dedupKey a.2 ≠ dedupKey b.2 := by
  have hperm : (mergeRank rs.enum).Perm (dedupByKey rs.enum) := by
    unfold mergeRank
    exact List.mergeSort_perm _ _
  exact (hperm.pairwise_iff fun h => Ne.symm h).mpr (dedup_pairwise_keys rs)

/-- In an enumeration of a list with pairwise-distinct keys, the key
determines the entry. -/
theorem enum_key_inj (L : List RetrievalResult)
    (hL : L.Pairwise fun r s => dedupKey r ≠ dedupKey s)
    (a b : Nat × RetrievalResult) (ha : a ∈ L.enum) (hb : b ∈ L.enum)
    (hk : dedupKey a.2 = dedupKey b.2) : a = b := by
  obtain ⟨h1, he1⟩ := mem_enum_eq L a ha
  obtain ⟨h2, he2⟩ := mem_enum_eq L b hb
  have hpg := List.pairwise_iff_getElem.mp hL
  rcases Nat.lt_trichotomy a.1 b.1 with h | h | h
  · exact absurd (by rw [← he1, ← he2]; exact hk) (hpg a.1 b.1 h1 h2 h)
  · exact enum_fst_inj L a b ha hb h
  · exact absurd (by rw [← he1, ← he2]; exact hk.symm) (hpg b.1 a.1 h2 h1 h)

/-- Deduplicating a list with pairwise-distinct keys keeps everything. -/
theorem dedup_eq_self_of_keys (L : List RetrievalResult)
    (hL : L.Pairwise fun r s => dedupKey r ≠ dedupKey s) :
    dedupByKey L.enum = L.enum := by
  refine List.filter_eq_self.mpr ?_
  intro x hx
  refine List.all_eq_true.mpr ?_
  intro j hj
  by_cases hk : dedupKey j.2 = dedupKey x.2
  · have hjx : j = x := enum_key_inj L hL j x hj hx hk
    subst hjx
    rw [beats_irrefl]
    simp
  · rw [decide_eq_false hk]
    rfl

/-- The enumeration of the payloads of a ranked list is itself sorted in the
ranking order. -/
theorem enum_pairwise_rank (M : List (Nat × RetrievalResult))
    (hM : M.Pairwise fun a b => rankLeB a b = true) :
    (M.map Prod.snd).enum.Pairwise fun a b => rankLeB a b = true := by
  refine List.pairwise_iff_getElem.mpr ?_
  intro i j hi hj hij
  have hi' : i < M.length := by simpa using hi
  have hj' : j < M.length := by simpa using hj
  have hrank := List.pairwise_iff_getElem.mp hM i j hi' hj' hij
  simp only [List.getElem_enum, List.getElem_map]
  exact rankLeB_shift hrank (Nat.le_of_lt hij)

/-- Re-merging the ranked survivors changes nothing. -/
theorem mergeRank_idem (rs : List RetrievalResult) :
    mergeRank ((mergeRank rs.enum).map Prod.snd).enum
      = ((mergeRank rs.enum).map Prod.snd).enum := by
  have hkeys : ((mergeRank rs.enum).map Prod.snd).Pairwise
      (fun r s => dedupKey r ≠ dedupKey s) :=
    List.pairwise_map.mpr (mergeRank_pairwise_keys rs)
  show (dedupByKey ((mergeRank rs.enum).map Prod.snd).enum).mergeSort rankLeB
      = _
  rw [dedup_eq_self_of_keys _ hkeys]
  exact List.mergeSort_of_sorted
    (enum_pairwise_rank _ (mergeRank_sorted rs.enum))

/-- C3: for every input, no two `SourceRecord`s of the merged context share
a deduplication key (normalized URI for web results, document id for local
ones); every surviving record is an instance from the input scoring at least
as high as every same-key instance; and every input key has a survivor. -/
theorem merged_context_dedup (rs : List RetrievalResult) :
    ((contextMerge rs).Pairwise fun s t =>
      dedupKey s.result ≠ dedupKey t.result) ∧
    (∀ s ∈ contextMerge rs, s.result ∈ rs ∧
      ∀ r ∈ rs, dedupKey r = dedupKey s.result →
        r.relevance_score ≤ s.result.relevance_score) ∧
    (∀ r ∈ rs, ∃ s ∈ contextMerge rs, dedupKey s.result = dedupKey r) := by
  refine ⟨?_, ?_, ?_⟩
  · unfold contextMerge
    have h1 : ((mergeRank rs.enum).enum.map Prod.snd).Pairwise
        (fun a b => dedupKey a.2 ≠ dedupKey b.2) := by
      rw [List.enum_map_snd]
      exact mergeRank_pairwise_keys rs
    have h2 : (mergeRank rs.enum).enum.Pairwise
        (fun p q => dedupKey p.2.2 ≠ dedupKey q.2.2) :=
      (@List.pairwise_map _ _ Prod.snd
        (fun a b => dedupKey a.2 ≠ dedupKey b.2)
        (mergeRank rs.enum).enum).mp h1
    exact (@List.pairwise_map _ _
      (fun p : Nat × (Nat × RetrievalResult) =>
        (⟨p.1, p.2.2⟩ : SourceRecord))
      (fun s t => dedupKey s.result ≠ dedupKey t.result)
      (mergeRank rs.enum).enum).mpr h2
  · intro s hs
    unfold contextMerge at hs
    rcases List.mem_map.mp hs with ⟨p, hp, rfl⟩
    have hsnd : p.2 ∈ mergeRank rs.enum := by
      have hmm := List.mem_map_of_mem Prod.snd hp
      rwa [List.enum_map_snd] at hmm
    have hD : p.2 ∈ dedupByKey rs.enum := by
      unfold mergeRank at hsnd
      exact (List.mergeSort_perm _ _).subset hsnd
    have hEnum : p.2 ∈ rs.enum := (List.filter_sublist _).subset hD
    constructor
    · have hmm := List.mem_map_of_mem Prod.snd hEnum
      rwa [List.enum_map_snd] at hmm
    · intro r hr hk
      rcases List.mem_iff_getElem.mp hr with ⟨i, hi, he⟩
      have hmem : (i, r) ∈ rs.enum := by
        refine List.mem_iff_getElem.mpr ⟨i, by simpa using hi, ?_⟩
        rw [List.getElem_enum, he]
      exact dedup_max_score rs p.2 hD (i, r) hmem hk
  · intro r hr
    obtain ⟨m, hmD, hkey⟩ := dedup_covers rs r hr
    have hmM : m ∈ mergeRank rs.enum := by
      unfold mergeRank
      exact (List.mergeSort_perm _ _).symm.subset hmD
    rcases List.mem_iff_getElem.mp hmM with ⟨j, hj, hjm⟩
    refine ⟨⟨j, m.2⟩, ?_, hkey⟩
    unfold contextMerge
    refine List.mem_map.mpr ⟨(j, m), ?_, rfl⟩
    refine List.mem_iff_getElem.mpr ⟨j, by simpa using hj, ?_⟩
    rw [List.getElem_enum, hjm]

/-- Witness for C3: on the concrete duplicate-bearing input, the duplicated
key has a surviving record. -/
theorem merged_context_dedup_witness :
    sampleDup1 ∈ sampleInput ∧
    ∃ s ∈ contextMerge sampleInput,
      dedupKey s.result = dedupKey sampleDup1 :=
  ⟨by decide, (merged_context_dedup sampleInput).2.2 sampleDup1 (by decide)⟩

/-- C4: merging is idempotent — re-merging the very records of the merged
context reproduces the same record ordering and the same indices; survivors
are ranked by score descending with ties broken by recency then original
provider order, and indices are assigned zero-based in rank order. -/
theorem merge_idempotent_ranked (rs : List RetrievalResult) :
    contextMerge ((contextMerge rs).map SourceRecord.result)
      = contextMerge rs ∧
    ((mergeRank rs.enum).Pairwise fun a b => rankLeB a b = true) ∧
    (contextMerge rs).map SourceRecord.index
      = List.range (contextMerge rs).length := by
  refine ⟨?_, mergeRank_sorted rs.enum, ?_⟩
  · have hL : (contextMerge rs).map SourceRecord.result
        = (mergeRank rs.enum).map Prod.snd := by
      apply List.ext_getElem
      · simp [contextMerge]
      · intro n h1 h2
        simp [contextMerge, List.getElem_map, List.getElem_enum]
    rw [hL]
    unfold contextMerge
    rw [mergeRank_idem rs]
    apply List.ext_getElem
    · simp
    · intro n h1 h2
      simp [List.getElem_map, List.getElem_enum]
  · unfold contextMerge
    rw [List.map_map]
    have hco : (SourceRecord.index ∘ fun p : Nat × (Nat × RetrievalResult) =>
        (⟨p.1, p.2.2⟩ : SourceRecord)) = Prod.fst := rfl
    rw [hco, List.enum_map_fst]
    simp

end MediMind
